import Mathlib

/-!
# Verification of the Stock Market Dashboard data layer

Shallow embedding of `src/data/stock_service.py`, `src/utils/helpers.py` and
`src/config/constants.py` of the Stock-Market-Dashboard repository, together
with proofs about the caching, search and chart-data operations.

Modelling conventions:
* Python `dict`s are association lists (`List (String × α)`) preserving
  Python's insertion-order semantics: updating an existing key keeps its
  position, a new key is appended at the end, `del` removes the entry.
* `datetime.now()` instants are natural numbers (seconds); the comparison
  `datetime.now() - t < timedelta(seconds=d)` becomes `now - t < d`.
* Prices and volumes are rationals; the places where numpy/pandas float64
  semantics matter (division by zero yielding `inf`/`nan` instead of raising)
  are modelled explicitly with the `PyFloat` type.
* The yfinance provider is a function argument: `none` models a raised
  exception, `some rows` a successful (possibly empty) history download.
-/

namespace StockDash

/-! ## Python dict model -/

/-- Lookup in a Python-style dict (association list). -/
def dlookup {α : Type} (k : String) : List (String × α) → Option α
  | [] => none
  | (k₂, v) :: rest => if k₂ = k then some v else dlookup k rest

/-- `d[k] = v` on a Python dict: update in place if the key exists,
append at the end otherwise. -/
def dinsert {α : Type} (k : String) (v : α) : List (String × α) → List (String × α)
  | [] => [(k, v)]
  | (k₂, v₂) :: rest => if k₂ = k then (k, v) :: rest else (k₂, v₂) :: dinsert k v rest

/-- `del d[k]` on a Python dict: remove the (first) entry with key `k`. -/
def ddel {α : Type} (k : String) : List (String × α) → List (String × α)
  | [] => []
  | (k₂, v₂) :: rest => if k₂ = k then rest else (k₂, v₂) :: ddel k rest

/-! ## Timed caches

The service keeps three data/timestamp dict pairs
(`_stock_data_cache`/`_cache_timestamps`,
`_chart_data_cache`/`_chart_cache_timestamps`); each such pair is one
`TimedCache`.  The duration attribute (`self._cache_duration`,
`self._chart_cache_duration`) is passed explicitly. -/

structure TimedCache (α : Type) where
  data : List (String × α)
  times : List (String × Nat)
deriving DecidableEq

/-- `self._cache_duration = 300` (5 minutes). -/
def cache_duration : Nat := 300

/-- `self._chart_cache_duration = 600` (10 minutes). -/
def chart_cache_duration : Nat := 600

/-- `self._search_cache_duration = 1800` (30 minutes). -/
def search_cache_duration : Nat := 1800

/-- `StockService._is_cache_valid` (and its textual twin
`_is_chart_cache_valid`): a key is valid when a timestamp exists and
`now - cache_time < duration`. -/
def is_cache_valid {α : Type} (dur : Nat) (c : TimedCache α) (now : Nat) (key : String) : Bool :=
  match dlookup key c.times with
  | none => false
  | some t => now - t < dur

/-- `StockService._get_from_cache` / `_get_chart_from_cache`. -/
def get_from_cache {α : Type} (dur : Nat) (c : TimedCache α) (now : Nat) (key : String) :
    Option α :=
  if is_cache_valid dur c now key then dlookup key c.data else none

/-- `StockService._store_in_cache` / `_store_chart_in_cache`. -/
def store_in_cache {α : Type} (c : TimedCache α) (now : Nat) (key : String) (v : α) :
    TimedCache α :=
  { data := dinsert key v c.data, times := dinsert key now c.times }

/-! ## Chart data (`get_chart_data`, `preload_chart_data`, cache stats) -/

/-- One row of a yfinance history dataframe (index date plus the columns the
service reads). -/
structure HistRow where
  date : String
  close : ℚ
  high : ℚ
  low : ℚ
  volume : ℚ
deriving DecidableEq

/-- A yfinance download: `none` models a raised exception, `some rows` a
successful history (possibly empty). Arguments: symbol, provider-native
period string. -/
def Provider : Type := String → String → Option (List HistRow)

/-- `CHART_PERIOD_MAPPING` from `src/config/constants.py`. -/
def CHART_PERIOD_MAPPING : List (String × String) :=
  [("5D", "5d"), ("1M", "1mo"), ("6M", "6mo"), ("1Y", "1y"), ("5Y", "5y"), ("Max", "max")]

/-- Python's `round(x, 2)` (round half to even), on rationals. -/
def round2 (q : ℚ) : ℚ :=
  let n : ℚ := q * 100
  let f : ℤ := Int.floor n
  let r : ℚ := n - f
  let i : ℤ :=
    if r < 1/2 then f
    else if 1/2 < r then f + 1
    else if f % 2 = 0 then f else f + 1
  (i : ℚ) / 100

/-- A `[date, price]` chart pair. -/
def ChartPoint : Type := String × ℚ

instance : DecidableEq ChartPoint := instDecidableEqProd

/-- The chart-data formatting loop of `get_chart_data`:
`[date.strftime('%Y-%m-%d'), round(float(row['Close']), 2)]` per row. -/
def format_chart_points (rows : List HistRow) : List ChartPoint :=
  rows.map (fun r => (r.date, round2 r.close))

/-- `StockService._is_chart_cache_valid` (duration 600 s). -/
def is_chart_cache_valid (c : TimedCache (List ChartPoint)) (now : Nat) (key : String) : Bool :=
  is_cache_valid chart_cache_duration c now key

/-- `StockService.get_chart_data`.  Returns the chart series, the updated
chart cache, and the log of Provider invocations made (symbol and
provider-native period of each `ticker.history` call). -/
def get_chart_data (provider : Provider) (st : TimedCache (List ChartPoint)) (now : Nat)
    (symbol period : String) :
    List ChartPoint × TimedCache (List ChartPoint) × List (String × String) :=
  let cacheKey := symbol ++ "_" ++ period
  match get_from_cache chart_cache_duration st now cacheKey with
  | some cached => (cached, st, [])
  | none =>
    let yfPeriod := (dlookup period CHART_PERIOD_MAPPING).getD "1mo"
    match provider symbol yfPeriod with
    | none => ([], st, [(symbol, yfPeriod)])
    | some [] => ([], st, [(symbol, yfPeriod)])
    | some (r :: rs) =>
      let chartData := format_chart_points (r :: rs)
      (chartData, store_in_cache st now cacheKey chartData, [(symbol, yfPeriod)])

/-- The always-empty Provider used as C1's concrete counterexample input:
yfinance returns an empty dataframe for every request. -/
def empty_provider : Provider := fun _ _ => some []

/-- The empty chart cache of a fresh `StockService`. -/
def empty_chart_cache : TimedCache (List ChartPoint) := ⟨[], []⟩

/-- `StockService._calculate_chart_hit_rate`:
`valid_entries / total_entries if total_entries > 0 else 0.0`. -/
def calculate_chart_hit_rate (st : TimedCache (List ChartPoint)) (now : Nat) : ℚ :=
  let valid_entries := (st.data.filter (fun kv => is_chart_cache_valid st now kv.1)).length
  let total_entries := st.data.length
  if 0 < total_entries then (valid_entries : ℚ) / (total_entries : ℚ) else 0

/-- A one-row Provider used as witness input. -/
def one_row_provider : Provider := fun _ _ => some [⟨"2024-01-02", 3, 4, 2, 100⟩]

/-! ## Historical summary (`get_historical_data`)

The trend computations run on pandas/numpy `float64` values, where dividing
by zero does **not** raise: it yields `inf`/`-inf` (or `nan` for `0/0`) with
a runtime warning.  `PyFloat` models exactly that behaviour; every other
arithmetic step in the function stays within finite rationals. -/

inductive PyFloat where
  | fin (q : ℚ)
  | posInf
  | negInf
  | nan
deriving DecidableEq

/-- numpy float64 division `a / b` for finite `a`, `b`. -/
def pyDiv (a b : ℚ) : PyFloat :=
  if b = 0 then
    if a = 0 then .nan else if 0 < a then .posInf else .negInf
  else .fin (a / b)

/-- Multiplication by the positive literal `100` (as in `(...) * 100`),
which preserves `inf`/`nan`. -/
def pyTimes100 : PyFloat → PyFloat
  | .fin q => .fin (q * 100)
  | .posInf => .posInf
  | .negInf => .negInf
  | .nan => .nan

/-- The dictionary returned by `get_historical_data`. -/
structure HistSummary where
  trend_change : PyFloat
  volume_trend : PyFloat
  high_period : ℚ
  low_period : ℚ
  avg_volume : ℚ
  chart_data : List (String × ℚ)
  current_price : ℚ
  start_price : ℚ
deriving DecidableEq

/-- `StockService.get_historical_data`.  `none` models the `return None`
paths (provider exception, or empty history). -/
def get_historical_data (provider : Provider) (symbol period : String) : Option HistSummary :=
  match provider symbol period with
  | none => none
  | some [] => none
  | some (r₀ :: rs) =>
    let rows := r₀ :: rs
    -- `.iloc[-1]`; `rows` is non-empty so the default is never used
    let last := rows.getLastD r₀
    let current_price := last.close
    let start_price := r₀.close
    let trend_change := pyTimes100 (pyDiv (current_price - start_price) start_price)
    let avg_volume := (rows.map (·.volume)).sum / (rows.length : ℚ)
    let recent_volume := last.volume
    let volume_trend := pyTimes100 (pyDiv (recent_volume - avg_volume) avg_volume)
    some
      { trend_change
        volume_trend
        high_period := (rs.map (·.high)).foldl max r₀.high
        low_period := (rs.map (·.low)).foldl min r₀.low
        avg_volume
        chart_data := rows.map (fun r => (r.date, r.close))
        current_price
        start_price }

/-- C2 failing input: a two-row history whose first close price is `0`. -/
def zero_baseline_provider : Provider := fun _ _ =>
  some [⟨"2024-01-02", 0, 1, 0, 10⟩, ⟨"2024-01-03", 5, 6, 4, 12⟩]

/-! ## Chart preloading (`preload_chart_data`) -/

/-- `priority_periods = ['1M', '6M', '1Y']`. -/
def priority_periods : List String := ["1M", "6M", "1Y"]

/-- `secondary_periods = ['5D', '5Y', 'Max']`. -/
def secondary_periods : List String := ["5D", "5Y", "Max"]

/-- `all_periods = priority_periods + secondary_periods`. -/
def all_periods : List String := priority_periods ++ secondary_periods

/-- The `for period in all_periods` loop of `preload_chart_data`: fetch each
period whose cache entry is not currently valid, accumulating the Provider
invocation log. `get_chart_data` already swallows provider errors (returning
`[]`), so the loop always proceeds to the next period. -/
def preload_loop (provider : Provider) (now : Nat) (symbol : String) :
    List String → TimedCache (List ChartPoint) × List (String × String) →
      TimedCache (List ChartPoint) × List (String × String)
  | [], acc => acc
  | p :: ps, acc =>
    if is_chart_cache_valid acc.1 now (symbol ++ "_" ++ p) then
      preload_loop provider now symbol ps acc
    else
      let r := get_chart_data provider acc.1 now symbol p
      preload_loop provider now symbol ps (r.2.1, acc.2 ++ r.2.2)

/-- `StockService.preload_chart_data`: returns the updated chart cache and
the log of Provider invocations. -/
def preload_chart_data (provider : Provider) (st : TimedCache (List ChartPoint)) (now : Nat)
    (symbol : String) : TimedCache (List ChartPoint) × List (String × String) :=
  preload_loop provider now symbol all_periods (st, [])

/-! ## Search-result cache (`cache_search_results`) -/

/-- Python `str.upper()` (on the character list of the string). -/
def str_upper (s : String) : String := ⟨s.data.map Char.toUpper⟩

/-- `self._search_cache`: dict from upper-cased search term to
`(results, timestamp)` tuples. -/
abbrev SearchCache : Type := List (String × (List String × Nat))

/-- `min(self._search_cache.keys(), key=lambda k: self._search_cache[k][1])`:
the first key achieving the minimal stored timestamp (Python's `min` keeps
the earliest of tied candidates). -/
def min_time_entry : SearchCache → Option (String × Nat)
  | [] => none
  | (k, _, t) :: rest =>
    match min_time_entry rest with
    | none => some (k, t)
    | some (k₂, t₂) => if t ≤ t₂ then some (k, t) else some (k₂, t₂)

/-- `StockService.cache_search_results`: insert under the upper-cased key,
then if the cache exceeds 100 entries evict the entry with the smallest
timestamp. -/
def cache_search_results (st : SearchCache) (now : Nat) (term : String)
    (results : List String) : SearchCache :=
  let key := str_upper term
  let st₂ : List (String × (List String × Nat)) := dinsert key (results, now) st
  if 100 < st₂.length then
    match min_time_entry st₂ with
    | some (k₂, _) => ddel k₂ st₂
    | none => st₂
  else st₂

/-- Inserting 101 search terms in sequence at consecutive timestamps
(starting from `t₀`), all results empty. -/
def insert_seq : List String → SearchCache → Nat → SearchCache
  | [], st, _ => st
  | k :: rest, st, t => insert_seq rest (cache_search_results st t k []) (t + 1)

/-- The cache entries produced by `insert_seq` while no eviction fires. -/
def build_entries : List String → Nat → SearchCache
  | [], _ => []
  | k :: rest, t => (str_upper k, ([], t)) :: build_entries rest (t + 1)

/-- 100 distinct follow-up search keys `K1`..`K100`. -/
def demo_rest : List String := (List.range 100).map (fun i => "K" ++ toString (i + 1))

/-! ## Quote batches (`get_stock_data`) -/

/-- `POPULAR_TICKERS` from `src/config/constants.py` (the source list
contains `NVDA` twice). -/
def POPULAR_TICKERS : List String :=
  ["AAPL", "GOOGL", "GOOG", "AMZN", "MSFT", "NVDA", "META", "NFLX", "ADBE", "CRM",
   "ORCL", "IBM", "INTC", "AMD", "QCOM", "AVGO", "CSCO", "PYPL", "SQ", "UBER",
   "LYFT", "SNAP", "TWTR", "ZOOM", "TSLA", "F", "GM", "NIO", "NVDA"]

/-- The fields `get_stock_data` reads from `tickers.tickers[symbol].info`;
`none` for a field models a key absent from the info dict (`t.get` default). -/
structure QuoteInfo where
  shortName : Option String
  regularMarketPrice : Option ℚ
  regularMarketChangePercent : Option ℚ
  regularMarketVolume : Option ℚ
  marketCap : Option ℚ
  trailingPE : Option ℚ
  regularMarketDayHigh : Option ℚ
  regularMarketDayLow : Option ℚ
  fiftyTwoWeekHigh : Option ℚ
  fiftyTwoWeekLow : Option ℚ
deriving DecidableEq

/-- The per-symbol record built by `get_stock_data`. -/
structure StockQuote where
  name : String
  symbol : String
  price : ℚ
  change : ℚ
  volume : ℚ
  market_cap : ℚ
  pe_ratio : ℚ
  day_high : ℚ
  day_low : ℚ
  fifty_two_week_high : ℚ
  fifty_two_week_low : ℚ
deriving DecidableEq

/-- The `stock_data = {...}` dictionary construction in the fetch loop
(`t.get(field, 0)` defaults, `'symbol': symbol`, `'name'` defaulting to the
symbol). -/
def mk_stock_data (symbol : String) (t : QuoteInfo) : StockQuote :=
  { name := t.shortName.getD symbol
    symbol := symbol
    price := t.regularMarketPrice.getD 0
    change := t.regularMarketChangePercent.getD 0
    volume := t.regularMarketVolume.getD 0
    market_cap := t.marketCap.getD 0
    pe_ratio := t.trailingPE.getD 0
    day_high := t.regularMarketDayHigh.getD 0
    day_low := t.regularMarketDayLow.getD 0
    fifty_two_week_high := t.fiftyTwoWeekHigh.getD 0
    fifty_two_week_low := t.fiftyTwoWeekLow.getD 0 }

/-- A quote provider: `none` models a per-symbol exception inside the fetch
loop (the `except` that prints and `continue`s). -/
def QuoteProvider : Type := String → Option QuoteInfo

/-- Descending order on `change` (`sorted(..., key=lambda x: x['change'],
reverse=True)`); Python's sort is stable, as is insertion sort. -/
def change_desc (a b : StockQuote) : Prop := b.change ≤ a.change

instance : DecidableRel change_desc := fun a b => Rat.instDecidableLe b.change a.change

instance : IsTotal StockQuote change_desc := ⟨fun a b => le_total b.change a.change⟩

instance : IsTrans StockQuote change_desc := ⟨fun _ _ _ h₁ h₂ => le_trans h₂ h₁⟩

/-- The fetch loop of `get_stock_data`: for each still-uncached symbol, ask
the provider; on success append the record and store it in the cache, on a
per-symbol error skip the symbol and continue. -/
def fetch_loop (provider : QuoteProvider) (now : Nat) :
    List String → List StockQuote × TimedCache StockQuote →
      List StockQuote × TimedCache StockQuote
  | [], acc => acc
  | s :: rest, acc =>
    match provider s with
    | none => fetch_loop provider now rest acc
    | some t =>
      let q := mk_stock_data s t
      fetch_loop provider now rest (acc.1 ++ [q], store_in_cache acc.2 now s q)

/-- `StockService.get_stock_data`: cache-check pass, fetch pass over the
misses, then sort descending by `change`. -/
def get_stock_data (provider : QuoteProvider) (st : TimedCache StockQuote) (now : Nat)
    (symbols : Option (List String)) : List StockQuote × TimedCache StockQuote :=
  let symbols := symbols.getD POPULAR_TICKERS
  if symbols.isEmpty then ([], st)
  else
    let hits := symbols.filterMap (fun s => get_from_cache cache_duration st now s)
    let symbols_to_fetch :=
      symbols.filter (fun s => (get_from_cache cache_duration st now s).isNone)
    let fetched := fetch_loop provider now symbols_to_fetch (hits, st)
    (List.insertionSort change_desc fetched.1, fetched.2)

/-- A provider that knows only `AAPL` and raises for anything else. -/
def demo_quote_provider : QuoteProvider := fun s =>
  if s = "AAPL" then
    some ⟨some "Apple Inc.", some 150, some 2, some 1000, some 100, some 30, some 151,
      some 149, some 200, some 100⟩
  else none

/-! ## Ticker suggestions (`get_ticker_suggestions` in `utils/helpers.py`) -/

/-- Python `str.startswith`, on character lists. -/
def list_is_pre : List Char → List Char → Bool
  | [], _ => true
  | _ :: _, [] => false
  | c :: cs, d :: ds => c = d && list_is_pre cs ds

/-- Python `in` (substring containment), on character lists. -/
def list_is_sub (needle hay : List Char) : Bool :=
  match hay with
  | [] => needle.isEmpty
  | _ :: t => list_is_pre needle hay || list_is_sub needle t

/-- `ticker.startswith(q)`. -/
def starts_with (ticker q : String) : Bool := list_is_pre q.data ticker.data

/-- `q in ticker`. -/
def contains_sub (ticker q : String) : Bool := list_is_sub q.data ticker.data

/-- `_sorted_tickers = sorted(POPULAR_TICKERS)`. -/
def sorted_tickers : List String := List.insertionSort (· ≤ ·) POPULAR_TICKERS

/-- One matching pass of `get_ticker_suggestions`: iterate the universe,
stop once 10 suggestions are collected, append each matching ticker not
already added. -/
def pass_add (pred : String → Bool) : List String → List String → List String
  | [], acc => acc
  | t :: rest, acc =>
    if 10 ≤ acc.length then acc
    else if pred t = true ∧ t ∉ acc then pass_add pred rest (acc ++ [t])
    else pass_add pred rest acc

/-- `get_ticker_suggestions` from `src/utils/helpers.py`: empty term yields
the top-10 popular tickers; otherwise exact, starts-with and contains passes
over the pre-sorted universe, truncated to 10. -/
def get_ticker_suggestions (search_term : String) : List String :=
  if search_term = "" then POPULAR_TICKERS.take 10
  else
    let s := str_upper search_term
    let exact := if s ∈ sorted_tickers then [s] else []
    let with_pre := pass_add (fun t => starts_with t s) sorted_tickers exact
    let with_sub := pass_add (fun t => contains_sub t s) sorted_tickers with_pre
    with_sub.take 10

/-- First-occurrence deduplication (the effect of the `added` set). -/
def dedup_first : List String → List String
  | [] => []
  | x :: xs => x :: dedup_first (xs.filter (fun y => y != x))
termination_by l => l.length
decreasing_by
  simp only [List.length_cons]
  exact Nat.lt_succ_of_le (List.length_filter_le _ _)

/-- Specification-side pass: append the universe's matches that are not
already added, first occurrence each. -/
def spec_pass (pred : String → Bool) (u : List String) (acc : List String) : List String :=
  acc ++ dedup_first (u.filter (fun t => pred t && decide (t ∉ acc)))

/-- Specification-side description of the ranked suggestion build: three
passes — exact, prefix-match, substring-match — each skipping symbols
already added, then truncation to at most 10 entries. -/
def spec_suggestions (q : String) (u : List String) : List String :=
  let p1 := dedup_first (u.filter (fun t => t == q))
  let p2 := spec_pass (fun t => starts_with t q) u p1
  let p3 := spec_pass (fun t => contains_sub t q) u p2
  p3.take 10

/-! ## Debounced search (`debounced_search`)

`debounced_search` manipulates `self._debounce_tasks` deterministically:
scheduling for a term cancels the pending task stored under that term (if
any) and records a fresh task; a cancelled task's `await` raises
`CancelledError`, which the method turns into `[]`.  The state below records
the task dict (term → task id), the set of cancelled task ids, and the next
fresh task id; real-time delays are irrelevant to which task survives. -/

structure DebounceState where
  tasks : List (String × Nat)
  cancelled : List Nat
  next_id : Nat

/-- The scheduling prefix of `debounced_search`: cancel the pending task for
the term (if any), create a fresh task and store it under the term. -/
def debounced_search_schedule (st : DebounceState) (term : String) : DebounceState :=
  { tasks := dinsert term st.next_id st.tasks
    cancelled :=
      match dlookup term st.tasks with
      | some tid => tid :: st.cancelled
      | none => st.cancelled
    next_id := st.next_id + 1 }

/-- What a task yields when it finally runs: a cancelled task returns `[]`
(the `except asyncio.CancelledError` branch), a live one performs the
suggestion lookup. -/
def delayed_search_result (st : DebounceState) (tid : Nat) (term : String) : List String :=
  if tid ∈ st.cancelled then [] else get_ticker_suggestions term

/-- A burst of `n` `debounced_search` calls for the same term. -/
def schedule_burst (term : String) : Nat → DebounceState → DebounceState
  | 0, st => st
  | n + 1, st => schedule_burst term n (debounced_search_schedule st term)

/-! ## Cache statistics (`get_cache_stats`) -/

/-- The dictionary returned by `get_cache_stats`.  (The `cached_periods` /
`cached_symbols` summaries are Python `set`s with unspecified iteration
order and are not modelled; no claim depends on them.) -/
structure CacheStats where
  stock_data_cache_size : Nat
  chart_data_cache_size : Nat
  search_cache_size : Nat
  active_debounce_tasks : Nat
  chart_cache_hit_rate : ℚ
deriving DecidableEq

/-- `StockService.get_cache_stats` over the four state components. -/
def get_cache_stats (stock : TimedCache StockQuote) (chart : TimedCache (List ChartPoint))
    (search : SearchCache) (debounce : DebounceState) (now : Nat) : CacheStats :=
  { stock_data_cache_size := stock.data.length
    chart_data_cache_size := chart.data.length
    search_cache_size := search.length
    active_debounce_tasks := debounce.tasks.length
    chart_cache_hit_rate := calculate_chart_hit_rate chart now }

theorem dlookup_dinsert_self {α : Type} (k : String) (v : α) (l : List (String × α)) :
    dlookup k (dinsert k v l) = some v := by
  induction l with
  | nil => simp [dinsert, dlookup]
  | cons hd tl ih =>
    obtain ⟨k₂, v₂⟩ := hd
    by_cases h : k₂ = k <;> simp [dinsert, dlookup, h, ih]

theorem dlookup_dinsert_ne {α : Type} {k k₂ : String} (v : α) (l : List (String × α))
    (h : k₂ ≠ k) : dlookup k₂ (dinsert k v l) = dlookup k₂ l := by
  induction l with
  | nil => simp [dinsert, dlookup, Ne.symm h]
  | cons hd tl ih =>
    obtain ⟨k₃, v₃⟩ := hd
    by_cases h₃ : k₃ = k
    · subst h₃
      simp [dinsert, dlookup, Ne.symm h]
    · by_cases h₄ : k₃ = k₂
      · subst h₄
        simp [dinsert, dlookup, h₃]
      · simp [dinsert, dlookup, h₃, h₄, ih]

theorem dinsert_of_lookup_none {α : Type} {k : String} (v : α) {l : List (String × α)}
    (h : dlookup k l = none) : dinsert k v l = l ++ [(k, v)] := by
  induction l with
  | nil => simp [dinsert]
  | cons hd tl ih =>
    obtain ⟨k₂, v₂⟩ := hd
    by_cases h₂ : k₂ = k
    · simp [dlookup, h₂] at h
    · simp [dlookup, h₂] at h
      simp [dinsert, h₂, ih h]

theorem dlookup_append {α : Type} (k : String) (l₁ l₂ : List (String × α)) :
    dlookup k (l₁ ++ l₂) =
      match dlookup k l₁ with
      | some v => some v
      | none => dlookup k l₂ := by
  induction l₁ with
  | nil => simp [dlookup]
  | cons hd tl ih =>
    obtain ⟨k₂, v₂⟩ := hd
    by_cases h : k₂ = k <;> simp [dlookup, h, ih]

theorem dinsert_length {α : Type} (k : String) (v : α) (l : List (String × α)) :
    (dinsert k v l).length =
      if (dlookup k l).isSome then l.length else l.length + 1 := by
  induction l with
  | nil => simp [dinsert, dlookup]
  | cons hd tl ih =>
    obtain ⟨k₂, v₂⟩ := hd
    by_cases h : k₂ = k
    · simp [dinsert, dlookup, h]
    · simp only [dinsert, dlookup, h, if_false, if_neg h, List.length_cons, ih]
      by_cases h₂ : (dlookup k tl).isSome <;> simp [h₂]

theorem ddel_length {α : Type} {k : String} {l : List (String × α)}
    (h : (dlookup k l).isSome) : (ddel k l).length = l.length - 1 := by
  induction l with
  | nil => simp [dlookup] at h
  | cons hd tl ih =>
    obtain ⟨k₂, v₂⟩ := hd
    by_cases h₂ : k₂ = k
    · simp [ddel, h₂]
    · simp only [dlookup, h₂, if_neg h₂] at h
      have htl := ih h
      simp only [ddel, if_neg h₂, List.length_cons, htl]
      cases tl with
      | nil => simp [dlookup] at h
      | cons a b => simp

/-- C5: `put(k, v)` records `storedAt = now` and overwrites any prior entry,
and a subsequent `get(k)` returns `v` iff the elapsed time since `storedAt`
is strictly less than the ttl; a missing entry yields absent. -/
theorem ttl_cache_contract {α : Type} (dur : Nat) (c : TimedCache α) (k : String) (v : α)
    (t now : Nat) :
    (get_from_cache dur (store_in_cache c t k v) now k = some v ↔ now - t < dur)
    ∧ dlookup k (store_in_cache c t k v).data = some v
    ∧ dlookup k (store_in_cache c t k v).times = some t
    ∧ (∀ (c₂ : TimedCache α) (n₂ : Nat), dlookup k c₂.times = none →
        get_from_cache dur c₂ n₂ k = none) := by
  refine ⟨?_, ?_, ?_, ?_⟩
  · constructor
    · intro h
      by_contra hlt
      simp [get_from_cache, is_cache_valid, store_in_cache, dlookup_dinsert_self, hlt] at h
    · intro hlt
      simp [get_from_cache, is_cache_valid, store_in_cache, dlookup_dinsert_self, hlt]
  · simp [store_in_cache, dlookup_dinsert_self]
  · simp [store_in_cache, dlookup_dinsert_self]
  · intro c₂ n₂ hmiss
    simp [get_from_cache, is_cache_valid, hmiss]

/-- Witness for C5 at a concrete cache: a value stored at time 10 is
returned at time 20 (elapsed 10 < 300), and a missing key yields absent. -/
theorem ttl_cache_contract_witness :
    (get_from_cache cache_duration
        (store_in_cache (⟨[], []⟩ : TimedCache Nat) 10 "AAPL" 7) 20 "AAPL" = some 7)
    ∧ get_from_cache cache_duration (⟨[], []⟩ : TimedCache Nat) 20 "MSFT" = none := by
  refine ⟨?_, ?_⟩
  · exact (ttl_cache_contract cache_duration ⟨[], []⟩ "AAPL" 7 10 20).1.mpr (by decide)
  · exact (ttl_cache_contract cache_duration ⟨[], []⟩ "MSFT" 0 0 20).2.2.2 ⟨[], []⟩ 20 rfl

/-- C1 counterexample: with a Provider that returns an empty history for
`("XYZ", "1mo")`, the first `get_chart_data "XYZ" "1M"` call invokes the
Provider, caches nothing under `"XYZ_1M"`, and the second identical call
invokes the Provider again — refuting "cached and Provider invoked only
once". -/
theorem chart_empty_not_cached_cex :
    (get_chart_data empty_provider empty_chart_cache 0 "XYZ" "1M").2.2 = [("XYZ", "1mo")]
    ∧ dlookup "XYZ_1M"
        (get_chart_data empty_provider empty_chart_cache 0 "XYZ" "1M").2.1.data = none
    ∧ (get_chart_data empty_provider
        (get_chart_data empty_provider empty_chart_cache 0 "XYZ" "1M").2.1 0 "XYZ" "1M").2.2
        = [("XYZ", "1mo")] := by
  decide

/-- C1 amended: when the chart cache misses and the Provider returns an empty
history, `get_chart_data` returns the empty series *without* caching it and
with the cache state unchanged, so a second identical call invokes the
Provider again (two invocations in total). -/
theorem chart_empty_result_not_cached (provider : Provider) (st : TimedCache (List ChartPoint))
    (now : Nat) (symbol period : String)
    (hmiss : get_from_cache chart_cache_duration st now (symbol ++ "_" ++ period) = none)
    (hempty : provider symbol ((dlookup period CHART_PERIOD_MAPPING).getD "1mo") = some []) :
    get_chart_data provider st now symbol period
      = ([], st, [(symbol, (dlookup period CHART_PERIOD_MAPPING).getD "1mo")])
    ∧ ((get_chart_data provider st now symbol period).2.2
        ++ (get_chart_data provider (get_chart_data provider st now symbol period).2.1
              now symbol period).2.2).length = 2 := by
  have h1 : get_chart_data provider st now symbol period
      = ([], st, [(symbol, (dlookup period CHART_PERIOD_MAPPING).getD "1mo")]) := by
    simp [get_chart_data, hmiss, hempty]
  refine ⟨h1, ?_⟩
  rw [h1]
  simp [h1]

/-- Witness for the amended C1 at the concrete empty-Provider input. -/
theorem chart_empty_result_not_cached_witness :
    get_chart_data empty_provider empty_chart_cache 0 "XYZ" "1M"
      = ([], empty_chart_cache, [("XYZ", "1mo")]) := by
  have h := chart_empty_result_not_cached empty_provider empty_chart_cache 0 "XYZ" "1M"
    (by decide) (by decide)
  exact h.1

/-- C10: a period token absent from `CHART_PERIOD_MAPPING` falls back to the
provider-native period `"1mo"`, and a non-empty result is still cached under
the caller-supplied token. -/
theorem chart_unknown_period_fallback (provider : Provider) (st : TimedCache (List ChartPoint))
    (now : Nat) (symbol period : String) (r : HistRow) (rs : List HistRow)
    (hmiss : get_from_cache chart_cache_duration st now (symbol ++ "_" ++ period) = none)
    (hper : dlookup period CHART_PERIOD_MAPPING = none)
    (hrows : provider symbol "1mo" = some (r :: rs)) :
    (get_chart_data provider st now symbol period).2.2 = [(symbol, "1mo")]
    ∧ (get_chart_data provider st now symbol period).1 = format_chart_points (r :: rs)
    ∧ dlookup (symbol ++ "_" ++ period)
        (get_chart_data provider st now symbol period).2.1.data
        = some (format_chart_points (r :: rs)) := by
  refine ⟨?_, ?_, ?_⟩ <;>
    simp [get_chart_data, hmiss, hper, hrows, store_in_cache, dlookup_dinsert_self]

/-- Witness for C10: the unrecognised period token `"2W"` is fetched as
`"1mo"` and cached under `"AAPL_2W"`. -/
theorem chart_unknown_period_fallback_witness :
    (get_chart_data one_row_provider empty_chart_cache 0 "AAPL" "2W").2.2 = [("AAPL", "1mo")]
    ∧ dlookup "AAPL_2W"
        (get_chart_data one_row_provider empty_chart_cache 0 "AAPL" "2W").2.1.data
        = some (format_chart_points [⟨"2024-01-02", 3, 4, 2, 100⟩]) := by
  have h := chart_unknown_period_fallback one_row_provider empty_chart_cache 0 "AAPL" "2W"
    ⟨"2024-01-02", 3, 4, 2, 100⟩ [] (by decide) (by decide) rfl
  exact ⟨h.1, h.2.2⟩

/-- C2: the code does *not* detect a zero first-close baseline before
dividing.  On a history whose first close is `0` (and last close `5`),
`get_historical_data` returns a *present* summary whose `trend_change` is
`+inf` — contradicting the spec's "detected before division; yields an
absent summary rather than an invalid number". -/
theorem historical_zero_baseline_bug :
    (get_historical_data zero_baseline_provider "XYZ" "1mo").isSome = true
    ∧ (get_historical_data zero_baseline_provider "XYZ" "1mo").map (·.trend_change)
        = some PyFloat.posInf := by
  refine ⟨rfl, ?_⟩
  simp [get_historical_data, zero_baseline_provider, pyDiv, pyTimes100]

theorem key_inj {symbol p₁ p₂ : String} (h : symbol ++ "_" ++ p₁ = symbol ++ "_" ++ p₂) :
    p₁ = p₂ := by
  have hd := congrArg String.data h
  simp only [String.data_append] at hd
  exact String.ext (List.append_cancel_left hd)

theorem valid_congr {st₁ st₂ : TimedCache (List ChartPoint)} {key : String} (now : Nat)
    (h : dlookup key st₁.times = dlookup key st₂.times) :
    is_chart_cache_valid st₁ now key = is_chart_cache_valid st₂ now key := by
  simp [is_chart_cache_valid, is_cache_valid, h]

/-- On a cache miss, `get_chart_data` makes exactly one Provider call and
leaves every other key's timestamp unchanged. -/
theorem get_chart_data_miss (provider : Provider) (st : TimedCache (List ChartPoint))
    (now : Nat) (symbol p : String)
    (h : is_chart_cache_valid st now (symbol ++ "_" ++ p) = false) :
    (get_chart_data provider st now symbol p).2.2
      = [(symbol, (dlookup p CHART_PERIOD_MAPPING).getD "1mo")]
    ∧ (∀ k, k ≠ symbol ++ "_" ++ p →
        dlookup k (get_chart_data provider st now symbol p).2.1.times = dlookup k st.times) := by
  have hmiss : get_from_cache chart_cache_duration st now (symbol ++ "_" ++ p) = none := by
    simp [get_from_cache, is_chart_cache_valid] at h ⊢
    simp [h]
  constructor
  · cases hp : provider symbol ((dlookup p CHART_PERIOD_MAPPING).getD "1mo") with
    | none => simp [get_chart_data, hmiss, hp]
    | some rows => cases rows <;> simp [get_chart_data, hmiss, hp]
  · intro k hk
    cases hp : provider symbol ((dlookup p CHART_PERIOD_MAPPING).getD "1mo") with
    | none => simp [get_chart_data, hmiss, hp]
    | some rows =>
      cases rows with
      | nil => simp [get_chart_data, hmiss, hp]
      | cons r rs =>
        simp [get_chart_data, hmiss, hp, store_in_cache, dlookup_dinsert_ne _ _ hk]

/-- On a cache miss with a successful non-empty download, `get_chart_data`
stamps the cache key with the current time. -/
theorem get_chart_data_success_times (provider : Provider) (st : TimedCache (List ChartPoint))
    (now : Nat) (symbol p : String) (r : HistRow) (rs : List HistRow)
    (h : is_chart_cache_valid st now (symbol ++ "_" ++ p) = false)
    (hp : provider symbol ((dlookup p CHART_PERIOD_MAPPING).getD "1mo") = some (r :: rs)) :
    dlookup (symbol ++ "_" ++ p) (get_chart_data provider st now symbol p).2.1.times
      = some now := by
  have hmiss : get_from_cache chart_cache_duration st now (symbol ++ "_" ++ p) = none := by
    simp [get_from_cache, is_chart_cache_valid] at h ⊢
    simp [h]
  simp [get_chart_data, hmiss, hp, store_in_cache, dlookup_dinsert_self]

/-- The preload loop leaves untouched the timestamp of any key that belongs
to none of its periods. -/
theorem preload_loop_times_pres (provider : Provider) (now : Nat) (symbol : String)
    (ps : List String) (k : String) (st : TimedCache (List ChartPoint))
    (cs : List (String × String)) (hk : ∀ p ∈ ps, k ≠ symbol ++ "_" ++ p) :
    dlookup k (preload_loop provider now symbol ps (st, cs)).1.times = dlookup k st.times := by
  induction ps generalizing st cs with
  | nil => simp [preload_loop]
  | cons p ps ih =>
    have hkp : k ≠ symbol ++ "_" ++ p := hk p (by simp)
    have hk₂ : ∀ p₂ ∈ ps, k ≠ symbol ++ "_" ++ p₂ := fun p₂ hp₂ => hk p₂ (by simp [hp₂])
    by_cases hv : is_chart_cache_valid st now (symbol ++ "_" ++ p)
    · simp [preload_loop, hv, ih _ _ hk₂]
    · have hmiss := get_chart_data_miss provider st now symbol p (by simpa using hv)
      simp only [preload_loop, hv, if_neg, if_false, Bool.false_eq_true]
      rw [ih _ _ hk₂, hmiss.2 k hkp]

/-- With pairwise-distinct periods, the number of Provider calls made by the
preload loop equals the number of periods whose cache entry is not valid at
loop entry: a failed fetch still counts one call and the loop continues. -/
theorem preload_loop_calls (provider : Provider) (now : Nat) (symbol : String)
    (ps : List String) (hnodup : ps.Nodup) (st : TimedCache (List ChartPoint))
    (cs : List (String × String)) :
    (preload_loop provider now symbol ps (st, cs)).2.length
      = cs.length
        + (ps.filter (fun p => !(is_chart_cache_valid st now (symbol ++ "_" ++ p)))).length := by
  induction ps generalizing st cs with
  | nil => simp [preload_loop]
  | cons p ps ih =>
    have hnd := List.nodup_cons.mp hnodup
    by_cases hv : is_chart_cache_valid st now (symbol ++ "_" ++ p)
    · simp [preload_loop, hv, ih hnd.2]
    · have hmiss := get_chart_data_miss provider st now symbol p (by simpa using hv)
      have hpres : ∀ p₂ ∈ ps,
          is_chart_cache_valid (get_chart_data provider st now symbol p).2.1 now
              (symbol ++ "_" ++ p₂)
            = is_chart_cache_valid st now (symbol ++ "_" ++ p₂) := by
        intro p₂ hp₂
        refine valid_congr now (hmiss.2 _ ?_)
        intro hkey
        exact hnd.1 (key_inj hkey ▸ hp₂)
      have hfilter :
          ps.filter (fun p₂ =>
              !(is_chart_cache_valid (get_chart_data provider st now symbol p).2.1 now
                  (symbol ++ "_" ++ p₂)))
            = ps.filter (fun p₂ => !(is_chart_cache_valid st now (symbol ++ "_" ++ p₂))) := by
        refine List.filter_congr ?_
        intro p₂ hp₂
        simp [hpres p₂ hp₂]
      have hvf : is_chart_cache_valid st now (symbol ++ "_" ++ p) = false := by simpa using hv
      simp only [preload_loop, hv, if_false, Bool.false_eq_true]
      rw [ih hnd.2, hfilter, hmiss.1]
      simp [List.filter_cons, hvf]
      omega

/-- From a state where none of the (pairwise-distinct) periods is validly
cached, a preload with all-successful non-empty downloads stamps every
period's key with the current time. -/
theorem preload_loop_caches (provider : Provider) (now : Nat) (symbol : String)
    (ps : List String) (hnodup : ps.Nodup) (st : TimedCache (List ChartPoint))
    (cs : List (String × String))
    (hcold : ∀ p ∈ ps, is_chart_cache_valid st now (symbol ++ "_" ++ p) = false)
    (hsucc : ∀ p ∈ ps, ∃ r rs,
        provider symbol ((dlookup p CHART_PERIOD_MAPPING).getD "1mo") = some (r :: rs)) :
    ∀ p ∈ ps,
      dlookup (symbol ++ "_" ++ p) (preload_loop provider now symbol ps (st, cs)).1.times
        = some now := by
  induction ps generalizing st cs with
  | nil => simp
  | cons p ps ih =>
    have hnd := List.nodup_cons.mp hnodup
    have hv : is_chart_cache_valid st now (symbol ++ "_" ++ p) = false := hcold p (by simp)
    obtain ⟨r, rs, hp⟩ := hsucc p (by simp)
    have hstamp := get_chart_data_success_times provider st now symbol p r rs hv hp
    have hmiss := get_chart_data_miss provider st now symbol p hv
    intro p₂ hp₂
    rcases List.mem_cons.mp hp₂ with rfl | hp₂tl
    · simp only [preload_loop, hv, if_false, Bool.false_eq_true]
      rw [preload_loop_times_pres provider now symbol ps _ _ _ ?_, hstamp]
      intro p₃ hp₃ hkey
      exact hnd.1 (key_inj hkey ▸ hp₃)
    · simp only [preload_loop, hv, if_false, Bool.false_eq_true]
      refine ih hnd.2 _ _ ?_ ?_ p₂ hp₂tl
      · intro p₃ hp₃
        rw [valid_congr now (hmiss.2 _ ?_)]
        · exact hcold p₃ (by simp [hp₃])
        · intro hkey
          exact hnd.1 (key_inj hkey ▸ hp₃)
      · intro p₃ hp₃
        exact hsucc p₃ (by simp [hp₃])

/-- Against a fully valid cache the preload loop is a no-op. -/
theorem preload_loop_warm (provider : Provider) (now : Nat) (symbol : String)
    (ps : List String) (st : TimedCache (List ChartPoint)) (cs : List (String × String))
    (hall : ∀ p ∈ ps, is_chart_cache_valid st now (symbol ++ "_" ++ p) = true) :
    preload_loop provider now symbol ps (st, cs) = (st, cs) := by
  induction ps with
  | nil => simp [preload_loop]
  | cons p ps ih =>
    have hv := hall p (by simp)
    simp only [preload_loop, hv, if_true]
    exact ih fun p₂ hp₂ => hall p₂ (by simp [hp₂])

/-- C8: `preload_chart_data` fetches only periods whose chart-cache entry is
not currently valid (one Provider call per such period, continuing past
failures), and is idempotent: from a cold cache with all downloads
succeeding, the first call makes 6 Provider calls and a second call while
the entries are still fresh makes none. -/
theorem preload_idempotent (provider : Provider) (st : TimedCache (List ChartPoint))
    (now now₂ : Nat) (symbol : String)
    (hcold : ∀ p ∈ all_periods, is_chart_cache_valid st now (symbol ++ "_" ++ p) = false)
    (hsucc : ∀ p ∈ all_periods, ∃ r rs,
        provider symbol ((dlookup p CHART_PERIOD_MAPPING).getD "1mo") = some (r :: rs))
    (hfresh : now₂ - now < chart_cache_duration) :
    (preload_chart_data provider (preload_chart_data provider st now symbol).1 now₂ symbol).2
      = []
    ∧ (preload_chart_data provider st now symbol).2.length = 6
    ∧ (∀ (provider₂ : Provider) (st₂ : TimedCache (List ChartPoint)) (n : Nat),
        (preload_chart_data provider₂ st₂ n symbol).2.length
          = (all_periods.filter
              (fun p => !(is_chart_cache_valid st₂ n (symbol ++ "_" ++ p)))).length) := by
  have hnodup : all_periods.Nodup := by decide
  refine ⟨?_, ?_, ?_⟩
  · have hcached := preload_loop_caches provider now symbol all_periods hnodup st [] hcold hsucc
    have hwarm : ∀ p ∈ all_periods,
        is_chart_cache_valid (preload_chart_data provider st now symbol).1 now₂
          (symbol ++ "_" ++ p) = true := by
      intro p hp
      have hstamp := hcached p hp
      simp only [preload_chart_data] at hstamp ⊢
      simp [is_chart_cache_valid, is_cache_valid, hstamp, hfresh]
    have := preload_loop_warm provider now₂ symbol all_periods
      (preload_chart_data provider st now symbol).1 [] hwarm
    simpa [preload_chart_data] using congrArg Prod.snd this
  · have hcalls := preload_loop_calls provider now symbol all_periods hnodup st []
    have hfull : all_periods.filter
        (fun p => !(is_chart_cache_valid st now (symbol ++ "_" ++ p))) = all_periods :=
      List.filter_eq_self.mpr (fun p hp => by simp [hcold p hp])
    simp only [preload_chart_data, hcalls, hfull, List.length_nil]
    rfl
  · intro provider₂ st₂ n
    have hcalls := preload_loop_calls provider₂ n symbol all_periods hnodup st₂ []
    simpa [preload_chart_data] using hcalls

/-- Witness for C8: cold cache, one-row Provider — first preload makes 6
calls, an immediate second preload makes none. -/
theorem preload_idempotent_witness :
    (preload_chart_data one_row_provider
        (preload_chart_data one_row_provider empty_chart_cache 0 "AAPL").1 0 "AAPL").2 = []
    ∧ (preload_chart_data one_row_provider empty_chart_cache 0 "AAPL").2.length = 6 := by
  have h := preload_idempotent one_row_provider empty_chart_cache 0 0 "AAPL"
    (by decide) (fun p _ => ⟨⟨"2024-01-02", 3, 4, 2, 100⟩, [], rfl⟩) (by decide)
  exact ⟨h.1, h.2.1⟩

theorem dlookup_isSome_of_mem {α : Type} {k : String} {v : α} {l : List (String × α)}
    (h : (k, v) ∈ l) : (dlookup k l).isSome := by
  induction l with
  | nil => simp at h
  | cons hd tl ih =>
    obtain ⟨k₂, v₂⟩ := hd
    by_cases hk : k₂ = k
    · simp [dlookup, hk]
    · rcases List.mem_cons.mp h with heq | htl
      · exact absurd (congrArg Prod.fst heq).symm hk
      · simpa [dlookup, hk] using ih htl

theorem min_time_entry_spec {l : SearchCache} {k : String} {t : Nat}
    (h : min_time_entry l = some (k, t)) : ∃ v, (k, (v, t)) ∈ l := by
  induction l with
  | nil => simp [min_time_entry] at h
  | cons hd tl ih =>
    obtain ⟨k₁, v₁, t₁⟩ := hd
    cases hm : min_time_entry tl with
    | none =>
      simp [min_time_entry, hm] at h
      obtain ⟨hk, ht⟩ := h
      subst hk
      subst ht
      exact ⟨v₁, List.mem_cons_self _ _⟩
    | some e =>
      obtain ⟨k₂, t₂⟩ := e
      by_cases hle : t₁ ≤ t₂
      · simp [min_time_entry, hm, hle] at h
        obtain ⟨hk, ht⟩ := h
        subst hk
        subst ht
        exact ⟨v₁, List.mem_cons_self _ _⟩
      · simp [min_time_entry, hm, hle] at h
        obtain ⟨hk, ht⟩ := h
        obtain ⟨v, hv⟩ := ih (by rw [hm, hk, ht])
        exact ⟨v, List.mem_cons_of_mem _ hv⟩

theorem min_time_entry_isSome {l : SearchCache} (h : l ≠ ([] : List _)) :
    (min_time_entry l).isSome := by
  cases l with
  | nil => exact absurd rfl h
  | cons hd tl =>
    obtain ⟨k₁, v₁, t₁⟩ := hd
    cases hm : min_time_entry tl with
    | none => simp [min_time_entry, hm]
    | some e =>
      obtain ⟨k₂, t₂⟩ := e
      by_cases hle : t₁ ≤ t₂ <;> simp [min_time_entry, hm, hle]

/-- If the head's timestamp is a lower bound for the tail, `min` returns the
head (Python's `min` keeps the earliest on ties). -/
theorem min_time_entry_head {k : String} {v : List String} {t : Nat} {rest : SearchCache}
    (h : ∀ e ∈ rest, t ≤ e.2.2) :
    min_time_entry ((k, (v, t)) :: rest) = some (k, t) := by
  cases hm : min_time_entry rest with
  | none => simp [min_time_entry, hm]
  | some e =>
    obtain ⟨k₂, t₂⟩ := e
    obtain ⟨v₂, hv₂⟩ := min_time_entry_spec hm
    have := h _ hv₂
    simp only [min_time_entry, hm]
    simp [this]

theorem build_entries_length (ks : List String) (t : Nat) :
    (build_entries ks t).length = ks.length := by
  induction ks generalizing t with
  | nil => rfl
  | cons k rest ih => simp [build_entries, ih]

theorem build_entries_lookup_none {s : String} {ks : List String} {t : Nat}
    (h : s ∉ ks.map str_upper) : dlookup s (build_entries ks t) = none := by
  induction ks generalizing t with
  | nil => rfl
  | cons k rest ih =>
    simp only [List.map_cons, List.mem_cons] at h
    push_neg at h
    simp [build_entries, dlookup, Ne.symm h.1, ih h.2]

theorem build_entries_lookup_isSome {k : String} {ks : List String} {t : Nat}
    (h : k ∈ ks) : (dlookup (str_upper k) (build_entries ks t)).isSome := by
  induction ks generalizing t with
  | nil => simp at h
  | cons k₂ rest ih =>
    by_cases hk : str_upper k₂ = str_upper k
    · simp [build_entries, dlookup, hk]
    · rcases List.mem_cons.mp h with rfl | htl
      · exact absurd rfl hk
      · simpa [build_entries, dlookup, hk] using ih htl

theorem insert_seq_append (xs ys : List String) (st : SearchCache) (t : Nat) :
    insert_seq (xs ++ ys) st t = insert_seq ys (insert_seq xs st t) (t + xs.length) := by
  induction xs generalizing st t with
  | nil => simp [insert_seq]
  | cons x xs ih =>
    have h1 : insert_seq ((x :: xs) ++ ys) st t
        = insert_seq (xs ++ ys) (cache_search_results st t x []) (t + 1) := rfl
    rw [h1, ih, show t + (x :: xs).length = t + 1 + xs.length from by
      simp only [List.length_cons]
      omega]
    rfl

/-- While the cache stays within capacity, inserting pairwise-distinct fresh
keys at consecutive timestamps just appends their entries in order. -/
theorem insert_seq_no_evict (ks : List String) (st : SearchCache) (t₀ : Nat)
    (hlen : st.length + ks.length ≤ 100)
    (hdisj : ∀ k ∈ ks, dlookup (str_upper k) st = none)
    (hnodup : (ks.map str_upper).Nodup) :
    insert_seq ks st t₀ = st ++ build_entries ks t₀ := by
  induction ks generalizing st t₀ with
  | nil => simp [insert_seq, build_entries]
  | cons k rest ih =>
    have hkey : dlookup (str_upper k) st = none := hdisj k (by simp)
    have hlen' : st.length + rest.length + 1 ≤ 100 := by
      simp only [List.length_cons] at hlen
      omega
    have hcons : (List.map str_upper (k :: rest)).Nodup := hnodup
    simp only [List.map_cons, List.nodup_cons] at hcons
    have hins : cache_search_results st t₀ k [] = st ++ [(str_upper k, ([], t₀))] := by
      simp only [cache_search_results]
      rw [dinsert_of_lookup_none _ hkey, if_neg (by simp; omega)]
    simp only [insert_seq, hins]
    rw [ih (st ++ [(str_upper k, ([], t₀))]) (t₀ + 1) (by simp; omega) ?_ hcons.2]
    · simp [build_entries]
    · intro k₂ hk₂
      rw [dlookup_append]
      have hne : str_upper k ≠ str_upper k₂ := by
        intro heq
        exact hcons.1 (by rw [heq]; exact List.mem_map_of_mem str_upper hk₂)
      simp [hdisj k₂ (by simp [hk₂]), dlookup, hne]

/-- C4: the Search Result Cache never grows beyond 100 entries
(`cache_search_results` preserves the bound), and inserting 101 distinct
keys at consecutive timestamps starting from an empty cache leaves exactly
100 entries: the first-inserted key (smallest timestamp) is evicted and
absent while every later key remains present. -/
theorem search_cache_capacity (st : SearchCache) (now : Nat) (term : String)
    (res : List String) (k₀ : String) (krest : List String)
    (hst : st.length ≤ 100) (hlen : krest.length = 100)
    (hnodup : ((k₀ :: krest).map str_upper).Nodup) :
    (cache_search_results st now term res).length ≤ 100
    ∧ (insert_seq (k₀ :: krest) [] 0).length = 100
    ∧ dlookup (str_upper k₀) (insert_seq (k₀ :: krest) [] 0) = none
    ∧ (∀ k ∈ krest, (dlookup (str_upper k) (insert_seq (k₀ :: krest) [] 0)).isSome) := by
  -- shared setup for the 101-insert scenario
  have hne : krest ≠ [] := by
    intro h
    rw [h] at hlen
    simp at hlen
  have hsplit : krest.dropLast ++ [krest.getLast hne] = krest :=
    List.dropLast_append_getLast hne
  set first99 := krest.dropLast with hf99
  set klast := krest.getLast hne with hkl
  have hlen99 : first99.length = 99 := by
    rw [hf99, List.length_dropLast, hlen]
  have hfull : k₀ :: krest = (k₀ :: first99) ++ [klast] := by
    conv_lhs => rw [← hsplit]
    simp
  have hnodup' : (str_upper k₀ :: (List.map str_upper first99 ++ [str_upper klast])).Nodup := by
    have h := hnodup
    rw [hfull] at h
    simpa [List.map_append] using h
  have h1 := List.nodup_cons.mp hnodup'
  have h2 := List.nodup_append.mp h1.2
  have hn₀ : str_upper k₀ ∉ List.map str_upper first99 := by
    intro hm
    exact h1.1 (List.mem_append_left _ hm)
  have hn₀l : str_upper k₀ ≠ str_upper klast := by
    intro heq
    exact h1.1 (List.mem_append_right _ (by simp [heq]))
  have hnl : str_upper klast ∉ List.map str_upper first99 := by
    intro hm
    exact h2.2.2 hm (by simp)
  have hfirst : insert_seq (k₀ :: first99) [] 0 = build_entries (k₀ :: first99) 0 := by
    have h := insert_seq_no_evict (k₀ :: first99) [] 0
      (by simp [hlen99]) (fun k _ => rfl)
      (by simp only [List.map_cons, List.nodup_cons]
          exact ⟨by simpa using hn₀, h2.1⟩)
    simpa using h
  have hseq : insert_seq (k₀ :: krest) [] 0
      = cache_search_results (build_entries (k₀ :: first99) 0) 100 klast [] := by
    rw [hfull, insert_seq_append, hfirst,
      show (0 : Nat) + (k₀ :: first99).length = 100 from by simp [hlen99]]
    rfl
  have hlookupB : dlookup (str_upper klast)
      ((str_upper k₀, (([] : List String), 0)) :: build_entries first99 1) = none := by
    simp [dlookup, hn₀l, build_entries_lookup_none hnl]
  have hfinal : cache_search_results
        ((str_upper k₀, (([] : List String), 0)) :: build_entries first99 1) 100 klast []
      = build_entries first99 1 ++ [(str_upper klast, ([], 100))] := by
    have hst₂ : dinsert (str_upper klast) (([] : List String), 100)
          ((str_upper k₀, (([] : List String), 0)) :: build_entries first99 1)
        = (str_upper k₀, (([] : List String), 0))
            :: (build_entries first99 1 ++ [(str_upper klast, ([], 100))]) := by
      rw [dinsert_of_lookup_none _ hlookupB]
      simp
    simp only [cache_search_results, hst₂]
    rw [if_pos (by simp [build_entries_length, hlen99])]
    rw [min_time_entry_head (fun e _ => Nat.zero_le _)]
    simp [ddel]
  have hresult : insert_seq (k₀ :: krest) [] 0
      = build_entries first99 1 ++ [(str_upper klast, ([], 100))] := by
    rw [hseq, show build_entries (k₀ :: first99) 0
      = (str_upper k₀, (([] : List String), 0)) :: build_entries first99 1 from rfl, hfinal]
  refine ⟨?_, ?_, ?_, ?_⟩
  · -- capacity bound is preserved by one call
    simp only [cache_search_results]
    by_cases hbig : 100 < (dinsert (str_upper term) (res, now) st).length
    · have hlen₂ : (dinsert (str_upper term) (res, now) st).length ≤ st.length + 1 := by
        rw [dinsert_length]
        split <;> omega
      have hne₂ : dinsert (str_upper term) (res, now) st ≠ [] := by
        intro h
        rw [h] at hbig
        simp at hbig
      obtain ⟨⟨k₂, t₂⟩, hmin⟩ := Option.isSome_iff_exists.mp (min_time_entry_isSome hne₂)
      obtain ⟨v, hv⟩ := min_time_entry_spec hmin
      have hdel := ddel_length (dlookup_isSome_of_mem hv)
      simp only [hbig, if_true, hmin]
      omega
    · simp only [hbig, if_false]
      omega
  · rw [hresult]
    simp [build_entries_length, hlen99]
  · rw [hresult, dlookup_append, build_entries_lookup_none hn₀]
    simp [dlookup, Ne.symm hn₀l]
  · intro k hk
    rw [← hsplit] at hk
    rcases List.mem_append.mp hk with hk99 | hklast
    · obtain ⟨v, hv⟩ := Option.isSome_iff_exists.mp (build_entries_lookup_isSome hk99)
      rw [hresult, dlookup_append, hv]
      rfl
    · rw [List.mem_singleton.mp hklast, hresult, dlookup_append,
        build_entries_lookup_none hnl]
      simp [dlookup]

/-- Witness for C4: concrete keys `K0`..`K100` inserted from an empty cache
leave 100 entries with `K0` evicted. -/
theorem search_cache_capacity_witness :
    (cache_search_results [] 0 "tsla" []).length ≤ 100
    ∧ (insert_seq ("K0" :: demo_rest) [] 0).length = 100
    ∧ dlookup (str_upper "K0") (insert_seq ("K0" :: demo_rest) [] 0) = none := by
  have h := search_cache_capacity [] 0 "tsla" [] "K0" demo_rest (by decide) (by decide)
    (by decide)
  exact ⟨h.1, h.2.1, h.2.2.1⟩

theorem fetch_loop_data (provider : QuoteProvider) (now : Nat) (symbols : List String)
    (acc : List StockQuote) (st : TimedCache StockQuote) :
    (fetch_loop provider now symbols (acc, st)).1
      = acc ++ symbols.filterMap (fun s => (provider s).map (mk_stock_data s)) := by
  induction symbols generalizing acc st with
  | nil => simp [fetch_loop]
  | cons s rest ih =>
    cases hp : provider s with
    | none => simp [fetch_loop, hp, ih]
    | some t => simp [fetch_loop, hp, ih]

theorem get_from_cache_some {α : Type} {dur : Nat} {c : TimedCache α} {now : Nat}
    {key : String} {v : α} (h : get_from_cache dur c now key = some v) :
    dlookup key c.data = some v := by
  by_cases hv : is_cache_valid dur c now key
  · simpa [get_from_cache, hv] using h
  · simp [get_from_cache, hv] at h

/-- C3: `get_stock_data` silently omits each symbol whose per-symbol fetch
errors while fetching the rest, and returns cache hits plus newly fetched
records sorted descending by the `change` field. -/
theorem get_stock_data_spec (provider : QuoteProvider) (st : TimedCache StockQuote)
    (now : Nat) (symbols : List String)
    (hwf : ∀ k q, dlookup k st.data = some q → q.symbol = k)
    (hne : symbols ≠ []) :
    List.Sorted change_desc (get_stock_data provider st now (some symbols)).1
    ∧ (get_stock_data provider st now (some symbols)).1.Perm
        (symbols.filterMap (fun s => get_from_cache cache_duration st now s)
          ++ (symbols.filter
                (fun s => (get_from_cache cache_duration st now s).isNone)).filterMap
              (fun s => (provider s).map (mk_stock_data s)))
    ∧ (∀ s ∈ symbols, get_from_cache cache_duration st now s = none → provider s = none →
        ∀ q ∈ (get_stock_data provider st now (some symbols)).1, q.symbol ≠ s) := by
  cases symbols with
  | nil => exact absurd rfl hne
  | cons s₀ srest =>
    have hres : (get_stock_data provider st now (some (s₀ :: srest))).1
        = List.insertionSort change_desc
            (fetch_loop provider now
              ((s₀ :: srest).filter
                (fun s => (get_from_cache cache_duration st now s).isNone))
              ((s₀ :: srest).filterMap (fun s => get_from_cache cache_duration st now s),
                st)).1 := rfl
    have hdata := fetch_loop_data provider now
      ((s₀ :: srest).filter (fun s => (get_from_cache cache_duration st now s).isNone))
      ((s₀ :: srest).filterMap (fun s => get_from_cache cache_duration st now s)) st
    refine ⟨?_, ?_, ?_⟩
    · rw [hres]
      exact List.sorted_insertionSort change_desc _
    · rw [hres, hdata]
      exact List.perm_insertionSort change_desc _
    · intro s hs hmiss hperr q hq heq
      rw [hres] at hq
      have hq₂ : q ∈ (fetch_loop provider now
          ((s₀ :: srest).filter
            (fun s => (get_from_cache cache_duration st now s).isNone))
          ((s₀ :: srest).filterMap (fun s => get_from_cache cache_duration st now s),
            st)).1 :=
        (List.perm_insertionSort change_desc _).mem_iff.mp hq
      rw [hdata] at hq₂
      rcases List.mem_append.mp hq₂ with hhit | hfetch
      · obtain ⟨s₂, hs₂, hlook⟩ := List.mem_filterMap.mp hhit
        have hsym : q.symbol = s₂ := hwf s₂ q (get_from_cache_some hlook)
        rw [hsym.symm.trans heq, hmiss] at hlook
        exact Option.noConfusion hlook
      · obtain ⟨s₂, hs₂, hlook⟩ := List.mem_filterMap.mp hfetch
        cases hp : provider s₂ with
        | none =>
          rw [hp] at hlook
          exact Option.noConfusion hlook
        | some t =>
          rw [hp] at hlook
          have hq₃ : q = mk_stock_data s₂ t := by
            simpa using hlook.symm
          have hsym : q.symbol = s₂ := by
            rw [hq₃]
            rfl
          rw [hsym.symm.trans heq, hperr] at hp
          exact Option.noConfusion hp

/-- Witness for C3: `getQuotes(["AAPL", "BOGUS123"])` with a provider failing
only `BOGUS123` yields a sorted result with no `BOGUS123` record. -/
theorem get_stock_data_spec_witness :
    List.Sorted change_desc
      (get_stock_data demo_quote_provider ⟨[], []⟩ 0 (some ["AAPL", "BOGUS123"])).1
    ∧ (∀ q ∈ (get_stock_data demo_quote_provider ⟨[], []⟩ 0 (some ["AAPL", "BOGUS123"])).1,
        q.symbol ≠ "BOGUS123") := by
  have h := get_stock_data_spec demo_quote_provider ⟨[], []⟩ 0 ["AAPL", "BOGUS123"]
    (fun k q hq => by simp [dlookup] at hq) (by decide)
  exact ⟨h.1, h.2.2 "BOGUS123" (by decide) rfl (by decide)⟩

/-- The bounded matching pass equals the unbounded spec pass truncated to
10 entries (whenever the accumulator is within the bound). -/
theorem pass_add_eq (pred : String → Bool) (u : List String) :
    ∀ acc : List String, acc.length ≤ 10 →
      pass_add pred u acc
        = (acc ++ dedup_first (u.filter (fun t => pred t && decide (t ∉ acc)))).take 10 := by
  induction u with
  | nil =>
    intro acc hacc
    simp [pass_add, dedup_first, List.take_of_length_le hacc]
  | cons t rest ih =>
    intro acc hacc
    by_cases h10 : 10 ≤ acc.length
    · rw [pass_add, if_pos h10, List.take_append_of_le_length h10,
        List.take_of_length_le hacc]
    · push_neg at h10
      by_cases hsel : pred t = true ∧ t ∉ acc
      · rw [pass_add, if_neg (by omega), if_pos hsel,
          ih (acc ++ [t]) (by simp only [List.length_append, List.length_cons,
            List.length_nil]; omega)]
        have hcond : (pred t && decide (t ∉ acc)) = true := by simp [hsel.1, hsel.2]
        rw [List.filter_cons]
        simp only [hcond, if_true]
        rw [dedup_first]
        have hfe : rest.filter (fun y => pred y && decide (y ∉ acc ++ [t]))
            = (rest.filter (fun y => pred y && decide (y ∉ acc))).filter
                (fun y => y != t) := by
          rw [List.filter_filter]
          refine List.filter_congr ?_
          intro y _
          by_cases hpy : pred y = true
          · by_cases hyt : y = t
            · simp [hpy, hyt, List.mem_append]
            · by_cases hya : y ∈ acc <;> simp [hpy, hyt, hya, List.mem_append]
          · rw [Bool.not_eq_true] at hpy
            simp [hpy]
        rw [hfe]
        simp [List.append_assoc]
      · rw [pass_add, if_neg (by omega), if_neg hsel, ih acc hacc]
        have hcond : (pred t && decide (t ∉ acc)) = false := by
          by_cases hpt : pred t = true
          · have hmem : t ∈ acc := by
              by_contra hmem
              exact hsel ⟨hpt, hmem⟩
            simp [hpt, hmem]
          · rw [Bool.not_eq_true] at hpt
            simp [hpt]
        rw [List.filter_cons]
        simp [hcond]
        rw [if_neg hsel]

/-- The exact-match step equals the deduplicated exact-match filter pass. -/
theorem exact_pass_eq (q : String) (u : List String) :
    (if q ∈ u then [q] else []) = dedup_first (u.filter (fun t => t == q)) := by
  induction u with
  | nil => simp [dedup_first]
  | cons t rest ih =>
    by_cases ht : t = q
    · subst ht
      rw [List.filter_cons_of_pos (by simp), dedup_first]
      have hnil : (rest.filter (fun x => x == t)).filter (fun y => y != t) = [] := by
        rw [List.filter_filter]
        refine List.eq_nil_iff_forall_not_mem.mpr ?_
        intro a ha
        have := List.of_mem_filter ha
        by_cases h : a = t <;> simp [h] at this
      rw [hnil]
      simp [dedup_first, List.mem_cons]
    · rw [List.filter_cons_of_neg (by simp [ht])]
      have hiff : q ∈ t :: rest ↔ q ∈ rest := by
        have hne : q ≠ t := Ne.symm ht
        simp [List.mem_cons, hne]
      rw [if_congr hiff rfl rfl, ih]

/-- The matching passes never create duplicates (the `added` set). -/
theorem pass_add_nodup (pred : String → Bool) (u : List String) :
    ∀ acc : List String, acc.Nodup → (pass_add pred u acc).Nodup := by
  induction u with
  | nil => exact fun acc h => h
  | cons t rest ih =>
    intro acc h
    by_cases h10 : 10 ≤ acc.length
    · simpa [pass_add, h10] using h
    · by_cases hsel : pred t = true ∧ t ∉ acc
      · rw [pass_add, if_neg h10, if_pos hsel]
        refine ih _ (List.nodup_append.mpr ⟨h, List.nodup_singleton t, ?_⟩)
        intro a ha hat
        rw [List.mem_singleton.mp hat] at ha
        exact hsel.2 ha
      · rw [pass_add, if_neg h10, if_neg hsel]
        exact ih _ h

/-- C6: an empty term yields the first 10 popular tickers; otherwise the
result is built by three passes over the pre-sorted universe — exact, then
prefix, then substring — each skipping symbols already added, truncated to
at most 10 entries with no duplicates. -/
theorem ticker_suggestions_spec (s : String) :
    get_ticker_suggestions "" = POPULAR_TICKERS.take 10
    ∧ (s ≠ "" → get_ticker_suggestions s = spec_suggestions (str_upper s) sorted_tickers)
    ∧ (get_ticker_suggestions s).length ≤ 10
    ∧ (get_ticker_suggestions s).Nodup := by
  have hmain : ∀ s₂ : String, s₂ ≠ "" →
      get_ticker_suggestions s₂ = spec_suggestions (str_upper s₂) sorted_tickers := by
    intro s₂ hs
    set q := str_upper s₂ with hq
    set u := sorted_tickers with hu
    have hex_len : (if q ∈ u then [q] else []).length ≤ 10 := by
      split <;> simp
    set P₂ := spec_pass (fun t => starts_with t q) u
      (dedup_first (u.filter (fun t => t == q))) with hP₂
    have hA' : pass_add (fun t => starts_with t q) u (if q ∈ u then [q] else [])
        = P₂.take 10 := by
      rw [pass_add_eq (fun t => starts_with t q) u (if q ∈ u then [q] else []) hex_len,
        exact_pass_eq q u]
      rfl
    have hA_len : (pass_add (fun t => starts_with t q) u
        (if q ∈ u then [q] else [])).length ≤ 10 := by
      rw [hA', List.length_take]
      exact Nat.min_le_left _ _
    have hB := pass_add_eq (fun t => contains_sub t q) u
      (pass_add (fun t => starts_with t q) u (if q ∈ u then [q] else [])) hA_len
    have hlhs : get_ticker_suggestions s₂
        = (pass_add (fun t => contains_sub t q) u
            (pass_add (fun t => starts_with t q) u (if q ∈ u then [q] else []))).take 10 := by
      simp only [get_ticker_suggestions]
      rw [if_neg hs]
    rw [hlhs, hB, hA', List.take_take, Nat.min_self]
    by_cases hP : P₂.length ≤ 10
    · rw [List.take_of_length_le hP]
      rfl
    · push_neg at hP
      have h10 : (P₂.take 10).length = 10 := by
        rw [List.length_take]
        omega
      have hrhs : spec_suggestions q u = P₂.take 10 := by
        have hdef : spec_suggestions q u
            = (P₂ ++ dedup_first
                (u.filter (fun t => contains_sub t q && decide (t ∉ P₂)))).take 10 := rfl
        rw [hdef, List.take_append_of_le_length (by omega)]
      rw [List.take_append_of_le_length (le_of_eq h10.symm), List.take_take,
        Nat.min_self, hrhs]
  refine ⟨rfl, hmain s, ?_, ?_⟩
  · by_cases hs : s = ""
    · subst hs
      decide
    · simp only [get_ticker_suggestions, if_neg hs]
      rw [List.length_take]
      exact Nat.min_le_left _ _
  · by_cases hs : s = ""
    · subst hs
      decide
    · simp only [get_ticker_suggestions, if_neg hs]
      have hnd : (pass_add (fun t => contains_sub t (str_upper s)) sorted_tickers
          (pass_add (fun t => starts_with t (str_upper s)) sorted_tickers
            (if str_upper s ∈ sorted_tickers then [str_upper s] else []))).Nodup := by
        refine pass_add_nodup _ _ _ (pass_add_nodup _ _ _ ?_)
        split <;> simp
      exact hnd.sublist (List.take_sublist _ _)

/-- Witness for C6 at the concrete search term `"aa"`. -/
theorem ticker_suggestions_spec_witness :
    ("aa" : String) ≠ ""
    ∧ get_ticker_suggestions "aa" = spec_suggestions (str_upper "aa") sorted_tickers := by
  exact ⟨by decide, (ticker_suggestions_spec "aa").2.1 (by decide)⟩

theorem schedule_burst_spec (term : String) :
    ∀ n : Nat, 1 ≤ n → ∀ st : DebounceState,
      (schedule_burst term n st).next_id = st.next_id + n
      ∧ dlookup term (schedule_burst term n st).tasks = some (st.next_id + n - 1)
      ∧ (∀ j, j ∈ (schedule_burst term n st).cancelled ↔
          (j ∈ st.cancelled ∨ dlookup term st.tasks = some j
            ∨ ∃ i, i < n - 1 ∧ j = st.next_id + i)) := by
  intro n
  induction n with
  | zero => omega
  | succ n ih =>
    intro _ st
    by_cases hn : 1 ≤ n
    · obtain ⟨ihid, ihlook, ihcancel⟩ := ih hn (debounced_search_schedule st term)
      have hsid : (debounced_search_schedule st term).next_id = st.next_id + 1 := rfl
      have hslook : dlookup term (debounced_search_schedule st term).tasks
          = some st.next_id := dlookup_dinsert_self term st.next_id st.tasks
      have hscancel : ∀ j, j ∈ (debounced_search_schedule st term).cancelled ↔
          (j ∈ st.cancelled ∨ dlookup term st.tasks = some j) := by
        intro j
        simp only [debounced_search_schedule]
        cases hl : dlookup term st.tasks with
        | none => simp [hl]
        | some tid =>
          simp only [List.mem_cons]
          constructor
          · rintro (rfl | hj)
            · exact Or.inr rfl
            · exact Or.inl hj
          · rintro (hj | hj)
            · exact Or.inr hj
            · exact Or.inl (Option.some_injective _ hj).symm
      refine ⟨?_, ?_, ?_⟩
      · rw [show schedule_burst term (n + 1) st
            = schedule_burst term n (debounced_search_schedule st term) from rfl, ihid, hsid]
        omega
      · rw [show schedule_burst term (n + 1) st
            = schedule_burst term n (debounced_search_schedule st term) from rfl, ihlook,
          hsid]
        congr 1
        omega
      · intro j
        rw [show schedule_burst term (n + 1) st
            = schedule_burst term n (debounced_search_schedule st term) from rfl]
        rw [ihcancel j, hscancel j, hslook, hsid]
        constructor
        · rintro ((hj | hj) | hj | ⟨i, hi, rfl⟩)
          · exact Or.inl hj
          · exact Or.inr (Or.inl hj)
          · refine Or.inr (Or.inr ⟨0, by omega, by
              have := Option.some_injective _ hj
              omega⟩)
          · exact Or.inr (Or.inr ⟨i + 1, by omega, by omega⟩)
        · rintro (hj | hj | ⟨i, hi, rfl⟩)
          · exact Or.inl (Or.inl hj)
          · exact Or.inl (Or.inr hj)
          · cases i with
            | zero => exact Or.inr (Or.inl (by simp))
            | succ i => exact Or.inr (Or.inr ⟨i, by omega, by omega⟩)
    · have hn0 : n = 0 := by omega
      subst hn0
      refine ⟨rfl, ?_, ?_⟩
      · exact dlookup_dinsert_self term st.next_id st.tasks
      · intro j
        simp only [schedule_burst, debounced_search_schedule]
        cases hl : dlookup term st.tasks with
        | none => simp [hl]
        | some tid =>
          simp only [List.mem_cons]
          constructor
          · rintro (rfl | hj)
            · exact Or.inr (Or.inl rfl)
            · exact Or.inl hj
          · rintro (hj | hj | ⟨i, hi, _⟩)
            · exact Or.inr hj
            · exact Or.inl (Option.some_injective _ hj).symm
            · omega

/-- C7: in a burst of `n ≥ 1` `debounced_search` schedules for one term,
every task but the last is cancelled (its firing yields `[]`), the last task
is the single pending one and performs the lookup, and exactly one of the
burst's tasks executes the suggestion lookup. -/
theorem debounce_exactly_once (st : DebounceState) (term : String) (n : Nat)
    (hn : 1 ≤ n)
    (hfresh : ∀ j ∈ st.cancelled, j < st.next_id)
    (htasks : ∀ t₂ j, dlookup t₂ st.tasks = some j → j < st.next_id) :
    dlookup term (schedule_burst term n st).tasks = some (st.next_id + n - 1)
    ∧ (∀ i, i < n - 1 →
        delayed_search_result (schedule_burst term n st) (st.next_id + i) term = [])
    ∧ delayed_search_result (schedule_burst term n st) (st.next_id + n - 1) term
        = get_ticker_suggestions term
    ∧ (List.range n).countP
        (fun i => decide ((st.next_id + i) ∉ (schedule_burst term n st).cancelled)) = 1 := by
  obtain ⟨hid, hlook, hcancel⟩ := schedule_burst_spec term n hn st
  have hmem : ∀ i, i < n - 1 → (st.next_id + i) ∈ (schedule_burst term n st).cancelled :=
    fun i hi => (hcancel _).mpr (Or.inr (Or.inr ⟨i, hi, rfl⟩))
  have hlast : (st.next_id + n - 1) ∉ (schedule_burst term n st).cancelled := by
    intro hin
    rcases (hcancel _).mp hin with hj | hj | ⟨i, hi, hj⟩
    · have := hfresh _ hj
      omega
    · have := htasks term _ hj
      omega
    · omega
  refine ⟨hlook, ?_, ?_, ?_⟩
  · intro i hi
    simp [delayed_search_result, hmem i hi]
  · simp [delayed_search_result, hlast]
  · have hsplit : List.range n = List.range (n - 1) ++ [n - 1] := by
      conv_lhs => rw [show n = (n - 1) + 1 from by omega]
      exact List.range_succ (n - 1)
    rw [hsplit, List.countP_append]
    have hzero : (List.range (n - 1)).countP
        (fun i => decide ((st.next_id + i) ∉ (schedule_burst term n st).cancelled)) = 0 := by
      refine List.countP_eq_zero.mpr ?_
      intro i hi
      have := hmem i (List.mem_range.mp hi)
      simp [this]
    have hone : List.countP
        (fun i => decide ((st.next_id + i) ∉ (schedule_burst term n st).cancelled))
        [n - 1] = 1 := by
      have : st.next_id + (n - 1) = st.next_id + n - 1 := by omega
      simp [List.countP_cons, this, hlast]
    rw [hzero, hone]

/-- Witness for C7: three schedules for `"AAPL"` from a fresh service leave
task 2 as the only live task; tasks 0 and 1 fire to `[]` and exactly one
task performs the lookup. -/
theorem debounce_exactly_once_witness :
    dlookup "AAPL" (schedule_burst "AAPL" 3 ⟨[], [], 0⟩).tasks = some 2
    ∧ delayed_search_result (schedule_burst "AAPL" 3 ⟨[], [], 0⟩) 0 "AAPL" = []
    ∧ delayed_search_result (schedule_burst "AAPL" 3 ⟨[], [], 0⟩) 2 "AAPL"
        = get_ticker_suggestions "AAPL"
    ∧ (List.range 3).countP
        (fun i => decide ((0 + i) ∉ (schedule_burst "AAPL" 3 ⟨[], [], 0⟩).cancelled)) = 1 := by
  have h := debounce_exactly_once ⟨[], [], 0⟩ "AAPL" 3 (by decide)
    (fun j hj => by simp at hj) (fun t₂ j hj => by simp [dlookup] at hj)
  exact ⟨h.1, h.2.1 0 (by decide), h.2.2.1, h.2.2.2⟩

/-- C9: the reported chart-cache hit rate is the number of currently valid
chart-cache entries divided by the total number of entries, is `0` on an
empty chart cache, and always lies in `[0, 1]`. -/
theorem chart_hit_rate_spec (stock : TimedCache StockQuote)
    (chart : TimedCache (List ChartPoint)) (search : SearchCache)
    (debounce : DebounceState) (now : Nat) :
    (get_cache_stats stock chart search debounce now).chart_cache_hit_rate
      = calculate_chart_hit_rate chart now
    ∧ (chart.data ≠ [] →
        calculate_chart_hit_rate chart now
          = ((chart.data.countP (fun kv => is_chart_cache_valid chart now kv.1)) : ℚ)
            / (chart.data.length : ℚ))
    ∧ (chart.data = [] → calculate_chart_hit_rate chart now = 0)
    ∧ 0 ≤ calculate_chart_hit_rate chart now
    ∧ calculate_chart_hit_rate chart now ≤ 1 := by
  have hfl : (chart.data.filter (fun kv => is_chart_cache_valid chart now kv.1)).length
      = chart.data.countP (fun kv => is_chart_cache_valid chart now kv.1) :=
    (List.countP_eq_length_filter _ _).symm
  refine ⟨rfl, ?_, ?_, ?_, ?_⟩
  · intro hne
    have hpos : 0 < chart.data.length := List.length_pos.mpr hne
    simp only [calculate_chart_hit_rate, hfl, if_pos hpos]
  · intro hnil
    simp [calculate_chart_hit_rate, hnil]
  · simp only [calculate_chart_hit_rate]
    split
    · positivity
    · exact le_refl 0
  · simp only [calculate_chart_hit_rate]
    split
    · rename_i hpos
      rw [div_le_one (by exact_mod_cast hpos)]
      exact_mod_cast List.length_filter_le _ _
    · exact zero_le_one

/-- Witness for C9: a one-entry chart cache stamped at time `0` and read at
time `0` reports hit rate `1 / 1`. -/
theorem chart_hit_rate_spec_witness :
    calculate_chart_hit_rate ⟨[("AAPL_1M", [])], [("AAPL_1M", 0)]⟩ 0
      = (((⟨[("AAPL_1M", [])], [("AAPL_1M", 0)]⟩ : TimedCache (List ChartPoint)).data.countP
          (fun kv =>
            is_chart_cache_valid ⟨[("AAPL_1M", [])], [("AAPL_1M", 0)]⟩ 0 kv.1)) : ℚ)
        / ((⟨[("AAPL_1M", [])], [("AAPL_1M", 0)]⟩ :
            TimedCache (List ChartPoint)).data.length : ℚ) := by
  exact (chart_hit_rate_spec ⟨[], []⟩ ⟨[("AAPL_1M", [])], [("AAPL_1M", 0)]⟩ [] ⟨[], [], 0⟩
    0).2.1 (by decide)

end StockDash
